import Mathlib

/-!
Shallow embedding of the core of the stock_simulation repository
(`backend/app/indicators.py` and `backend/app/backtest.py`) over ℚ.

Series are Lean lists of rationals; a possibly-missing (NaN) value is an
`Option ℚ` with `none` as the missing sentinel.  Pandas primitives used by
the source are modelled by their documented semantics on NaN-free data:
`ewm(adjust=False).mean()` is the first-value-seeded exponential recursion,
`rolling(w, min_periods=1).mean()` is the trailing-window mean over the up
to `w` available bars, `cumsum` is the running sum, `diff` the one-step
difference (missing at index 0), `ffill`/`bfill` carry the nearest valid
value forward/backward.
-/

namespace StockSim

/-- Exponential recursion `y = (1-a)*prev + a*x` continued from seed `prev`
over the remaining observations (the tail of pandas `ewm(adjust=False)`). -/
def ewmFrom (a : ℚ) (prev : ℚ) : List ℚ → List ℚ
  | [] => []
  | x :: xs =>
    ((1 - a) * prev + a * x) :: ewmFrom a ((1 - a) * prev + a * x) xs

/-- Model of `series.ewm(alpha=a, adjust=False).mean()` on a NaN-free
series: seeded by the first observation, then the exponential recursion. -/
def ewmMean (a : ℚ) : List ℚ → List ℚ
  | [] => []
  | x :: xs => x :: ewmFrom a x xs

/-- Function `ema` from indicators.py:
`series.ewm(span=span, adjust=False).mean()`, i.e. the exponential
recursion with smoothing `a = 2/(span+1)`. -/
def ema (x : List ℚ) (span : ℕ) : List ℚ :=
  ewmMean (2 / ((span : ℚ) + 1)) x

/-- One-step differences `x[t+1] - x[t]`: the defined (non-NaN) part of
pandas `series.diff()`. -/
def diffs : List ℚ → List ℚ
  | [] => []
  | [_] => []
  | x :: y :: rest => (y - x) :: diffs (y :: rest)

/-- The series `delta.clip(lower=0.0).fillna(0.0)` from compute_rsi:
up-moves, with the missing first difference filled by 0. -/
def ups (c : List ℚ) : List ℚ :=
  match c with
  | [] => []
  | _ :: _ => 0 :: (diffs c).map (fun d => max d 0)

/-- The series `-1.0 * delta.clip(upper=0.0).fillna(0.0)` from
compute_rsi: down-moves, with the missing first difference filled by 0. -/
def downs (c : List ℚ) : List ℚ :=
  match c with
  | [] => []
  | _ :: _ => 0 :: (diffs c).map (fun d => max (-d) 0)

/-- Function `compute_rsi` from indicators.py.  Short series get the
constant 50.  Otherwise the up/down moves are smoothed with
`ewm(alpha=1/length, adjust=False)`; a zero smoothed-down denominator makes
RS undefined (NaN in the source, via `replace(0, nan)`), and the final
`fillna(50.0)` turns the undefined entries into 50. -/
def compute_rsi (close : List ℚ) (length : ℕ) : List ℚ :=
  if close.length < length + 1 then
    List.replicate close.length 50
  else
    ((ewmMean (1 / (length : ℚ)) (ups close)).zip
        (ewmMean (1 / (length : ℚ)) (downs close))).map
      (fun p => if p.2 = 0 then 50 else 100 - 100 / (1 + p.1 / p.2))

/-- Running sums continued from accumulator `acc` (pandas `cumsum`). -/
def cumFrom (acc : ℚ) : List ℚ → List ℚ
  | [] => []
  | x :: xs => (acc + x) :: cumFrom (acc + x) xs

/-- Pandas `series.cumsum()` on a NaN-free series. -/
def cumsum (l : List ℚ) : List ℚ := cumFrom 0 l

/-- Trailing-window mean: `rolling(window=win, min_periods=1).mean()` at
index `t` averages the up to `win` observations ending at `t`. -/
def rollMean (win : ℕ) (v : List ℚ) (t : ℕ) : ℚ :=
  let w := (v.take (t + 1)).drop (t + 1 - win)
  w.sum / (w.length : ℚ)

/-- The input bar series: the five base columns, all NaN-free
(the upstream ingestion guarantees non-null OHLC and numeric volume). -/
structure Bars where
  open_ : List ℚ
  high : List ℚ
  low : List ℚ
  close : List ℚ
  volume : List ℚ
deriving DecidableEq, Repr

/-- All five columns of a bar frame have the common row count (a pandas
DataFrame invariant). -/
def Bars.WF (df : Bars) : Prop :=
  df.open_.length = df.close.length ∧ df.high.length = df.close.length ∧
  df.low.length = df.close.length ∧ df.volume.length = df.close.length

/-- Function `macd` from indicators.py: the triple of macd line, macd
signal line and macd histogram, with the default spans fast=12, slow=26
and signal span 9. -/
def macd (close : List ℚ) : List ℚ × List ℚ × List ℚ :=
  let ema_fast := ema close 12
  let ema_slow := ema close 26
  let macd_line := List.zipWith (· - ·) ema_fast ema_slow
  let macd_sig := ema macd_line 9
  (macd_line, macd_sig, List.zipWith (· - ·) macd_line macd_sig)

/-- Typical price `(high+low+close)/3` per bar. -/
def typicalL (df : Bars) : List ℚ :=
  List.zipWith (fun hl c => (hl + c) / 3)
    (List.zipWith (· + ·) df.high df.low) df.close

/-- The ratio `tpv.cumsum() / volume.cumsum().replace(0, nan)`: `none`
where the cumulative volume is zero. -/
def vwapRaw (df : Bars) : List (Option ℚ) :=
  ((cumsum (List.zipWith (· * ·) (typicalL df) df.volume)).zip
      (cumsum df.volume)).map
    (fun p => if p.2 = 0 then none else some (p.1 / p.2))

/-- Carry the nearest earlier valid value forward over missing entries
(pandas forward fill), starting from `last`. -/
def ffillFrom (last : Option ℚ) : List (Option ℚ) → List (Option ℚ)
  | [] => []
  | x :: xs =>
    match x with
    | some v => some v :: ffillFrom (some v) xs
    | none => last :: ffillFrom last xs

/-- Pandas fillna with the ffill method. -/
def ffill (l : List (Option ℚ)) : List (Option ℚ) := ffillFrom none l

/-- Pandas fillna with the bfill method: forward fill on the reversed
series. -/
def bfill (l : List (Option ℚ)) : List (Option ℚ) :=
  (ffill l.reverse).reverse

/-- Function `compute_vwap` from indicators.py: cumulative typical-price
volume over
cumulative volume, zero denominators made missing, then forward- and
backward-filled. -/
def compute_vwap (df : Bars) : List (Option ℚ) :=
  bfill (ffill (vwapRaw df))

/-- The per-bar sign used for OBV:
`(close.diff().fillna(0) > 0).astype(int) * 2 - 1`.  The filled zero delta
of the first bar fails the strict comparison and yields -1. -/
def obvSigns (c : List ℚ) : List ℚ :=
  match c with
  | [] => []
  | _ :: _ => (-1) :: (diffs c).map (fun d => if 0 < d then 1 else -1)

/-- The indexed formulation (as stated in the spec) of the OBV sign of
bar `k`: `+1` if `close[k] > close[k-1]`, else `-1`; the delta of the
first bar counts as 0 and hence gets `-1`. -/
def signAt (c : List ℚ) (k : ℕ) : ℚ :=
  if k = 0 then -1
  else if c.getD (k - 1) 0 < c.getD k 0 then 1 else -1

/-- True range of bar `t`: the row-wise max of `high-low`,
`|high-prevClose|`, `|low-prevClose|`; on the first bar the two prev-close
legs are NaN and drop out of the pandas `max(axis=1)`. -/
def trAt (df : Bars) (t : ℕ) : ℚ :=
  if t = 0 then df.high.getD 0 0 - df.low.getD 0 0
  else
    max (df.high.getD t 0 - df.low.getD t 0)
      (max |df.high.getD t 0 - df.close.getD (t - 1) 0|
        |df.low.getD t 0 - df.close.getD (t - 1) 0|)

/-- The TR column. -/
def trL (df : Bars) : List ℚ :=
  (List.range df.close.length).map (trAt df)

/-- The indicator-extended frame produced by `compute_all_indicators`:
the copied base columns plus the ten indicator columns.  VWAP keeps its
`Option` sentinel because an all-zero-volume series leaves it missing. -/
structure ExtBars where
  open_ : List ℚ
  high : List ℚ
  low : List ℚ
  close : List ℚ
  volume : List ℚ
  RSI : List ℚ
  MACD : List ℚ
  MACD_signal : List ℚ
  MACD_hist : List ℚ
  EMA_10 : List ℚ
  EMA_100 : List ℚ
  VWAP : List (Option ℚ)
  OBV : List ℚ
  TR : List ℚ
  ATR_14 : List ℚ
deriving DecidableEq, Repr

/-- Function `compute_all_indicators` from indicators.py.  The source
copies the
input frame and appends the indicator columns; the final
`replace([inf,-inf], nan)` is a no-op over ℚ, where the arithmetic never
produces an infinity. -/
def compute_all_indicators (df : Bars) : ExtBars :=
  let m := macd df.close
  { open_ := df.open_
    high := df.high
    low := df.low
    close := df.close
    volume := df.volume
    RSI := compute_rsi df.close 14
    MACD := m.1
    MACD_signal := m.2.1
    MACD_hist := m.2.2
    EMA_10 := ema df.close 10
    EMA_100 := ema df.close 100
    VWAP := compute_vwap df
    OBV := cumsum (List.zipWith (· * ·) (obvSigns df.close) df.volume)
    TR := trL df
    ATR_14 := (List.range df.close.length).map (rollMean 14 (trL df)) }

/-! ## Signal & backtest simulator (`backend/app/backtest.py`) -/

/-- The columns of the indicator-extended frame that `safe_backtest` reads.
The `open` column is `Option ℚ` because the simulator explicitly guards
against a missing (NaN) fill price; the remaining columns are NaN-free.
The row count of the frame (`len(df)`) is the common column length,
represented by `close.length`. -/
structure BFrame where
  open_ : List (Option ℚ)
  close : List ℚ
  volume : List ℚ
  MACD : List ℚ
  MACD_signal : List ℚ
  EMA_10 : List ℚ
deriving DecidableEq, Repr

/-- The trailing mean of the volume column with
`rolling(window=20, min_periods=1)` at bar `t`. -/
def volMean20 (v : List ℚ) (t : ℕ) : ℚ := rollMean 20 v t

/-- The per-bar signal column of `safe_backtest`.  The source initializes
the column to 0, sets 1 where `MACD > MACD_signal ∧ close > EMA_10 ∧
volume > vol_mean20`, then sets -1 where `MACD < MACD_signal ∧
close < EMA_10` (the later write wins, though the two guards are mutually
exclusive). -/
def signal (df : BFrame) (t : ℕ) : ℤ :=
  if df.MACD.getD t 0 < df.MACD_signal.getD t 0 ∧
      df.close.getD t 0 < df.EMA_10.getD t 0 then -1
  else if df.MACD_signal.getD t 0 < df.MACD.getD t 0 ∧
      df.EMA_10.getD t 0 < df.close.getD t 0 ∧
      volMean20 df.volume t < df.volume.getD t 0 then 1
  else 0

/-- A trade side. -/
inductive Side where
  | buy
  | sell
deriving DecidableEq, Repr

/-- One trade record `(side, df.index[i+1], price)`; the timestamp is
the bar position in the frame index. -/
structure Trade where
  side : Side
  ts : ℕ
  price : ℚ
deriving DecidableEq, Repr

/-- The loop state of `safe_backtest`: cash, position and the trade log. -/
structure BTState where
  cash : ℚ
  position : ℚ
  trades : List Trade
deriving DecidableEq, Repr

/-- The initial state: `cash = 100000.0`, `position = 0.0`, no trades. -/
def initState : BTState := ⟨100000, 0, []⟩

/-- The next-bar open `df.open.iat[i+1]`, the candidate fill price of
the signal at bar `i`. -/
def fillPrice (df : BFrame) (i : ℕ) : Option ℚ :=
  df.open_.getD (i + 1) none

/-- One iteration of the backtest loop at bar `i`: buy on signal 1 while
flat, sell on signal -1 while long, skipping when the next-bar open is
missing (`np.isnan`) or `price <= 0`. -/
def step (df : BFrame) (s : BTState) (i : ℕ) : BTState :=
  if signal df i = 1 ∧ s.position = 0 then
    match fillPrice df i with
    | none => s
    | some price =>
      if price ≤ 0 then s
      else ⟨0, s.cash / price, s.trades ++ [⟨Side.buy, i + 1, price⟩]⟩
  else if signal df i = -1 ∧ 0 < s.position then
    match fillPrice df i with
    | none => s
    | some price =>
      if price ≤ 0 then s
      else ⟨s.position * price, 0, s.trades ++ [⟨Side.sell, i + 1, price⟩]⟩
  else s

/-- The win count: pairs `(trades[j], trades[j+1])` for even `j`, counting
the pairs that are a buy then a sell with `exitp > entry` (the Python loop
`for j in range(0, len(trades)-1, 2)`). -/
def countWins : List Trade → ℕ
  | b :: s :: rest =>
    (if b.side = Side.buy ∧ s.side = Side.sell ∧ s.price > b.price
      then 1 else 0) + countWins rest
  | _ => 0

/-- The result record of `safe_backtest`. -/
structure BTResult where
  final_portfolio_value : ℚ
  n_trades : ℕ
  win_rate : ℚ
  trades_sample : List Trade
deriving DecidableEq, Repr

/-- Function `safe_backtest` from backtest.py: derive the signal column,
walk bars `0..len(df)-2` once, then summarize.  `final_portfolio_value`
marks an open position at the last close (`df.close.iat[-1]`);
`win_rate` is `wins / (n_trades/2)` under Python float division when
`n_trades >= 2`, else `0.0`. -/
def safe_backtest (df : BFrame) : BTResult :=
  let n := df.close.length
  let fin := (List.range (n - 1)).foldl (step df) initState
  let n_trades := fin.trades.length
  let wins := countWins fin.trades
  { final_portfolio_value :=
      fin.cash +
        (if fin.position ≠ 0 then fin.position * df.close.getD (n - 1) 0
          else 0)
    n_trades := n_trades
    win_rate :=
      if 2 ≤ n_trades then (wins : ℚ) / ((n_trades : ℚ) / 2) else 0
    trades_sample := fin.trades.take 10 }

/-- A four-bar frame with exactly one buy signal (bar 1) and one sell
signal (bar 2), fill prices 2 and 4. -/
def exFrameA : BFrame :=
  ⟨[some 1, some 1, some 2, some 4], [10, 10, 1, 5], [1, 3, 1, 1],
    [0, 2, 0, 0], [0, 1, 1, 0], [10, 5, 3, 0]⟩

/-- The same frame with the bar-2 open replaced by 0, so the buy signal
of bar 1 meets an invalid fill price. -/
def exFrameB : BFrame :=
  ⟨[some 1, some 1, some 0, some 4], [10, 10, 1, 5], [1, 3, 1, 1],
    [0, 2, 0, 0], [0, 1, 1, 0], [10, 5, 3, 0]⟩

/-- A two-bar input series used to exercise the indicator engine. -/
def exBars1 : Bars := ⟨[1, 1], [5, 6], [4, 5], [4, 6], [2, 3]⟩

/-! ## Lemmas about the exponential recursion -/

theorem ewmFrom_length (a : ℚ) (l : List ℚ) :
    ∀ p : ℚ, (ewmFrom a p l).length = l.length := by
  induction l with
  | nil => intro p; rfl
  | cons x xs ih => intro p; simp [ewmFrom, ih]

theorem ewmMean_length (a : ℚ) (l : List ℚ) :
    (ewmMean a l).length = l.length := by
  cases l with
  | nil => rfl
  | cons x xs => simp [ewmMean, ewmFrom_length]

theorem ewmFrom_getD_succ (a : ℚ) :
    ∀ (l : List ℚ) (p : ℚ) (t : ℕ), t + 1 < l.length →
      (ewmFrom a p l).getD (t + 1) 0 =
        a * l.getD (t + 1) 0 + (1 - a) * (ewmFrom a p l).getD t 0 := by
  intro l
  induction l with
  | nil => intro p t h; simp at h
  | cons x xs ih =>
    intro p t h
    cases t with
    | zero =>
      cases xs with
      | nil => simp at h
      | cons y ys =>
        simp only [ewmFrom, List.getD_cons_succ, List.getD_cons_zero]
        ring
    | succ t' =>
      have h' : t' + 1 < xs.length := by
        simpa using Nat.lt_of_succ_lt_succ h
      simp only [ewmFrom, List.getD_cons_succ]
      exact ih _ t' h'

theorem ewmMean_getD_zero (a : ℚ) (x : List ℚ) (h : x ≠ []) :
    (ewmMean a x).getD 0 0 = x.getD 0 0 := by
  cases x with
  | nil => exact absurd rfl h
  | cons c cs => rfl

theorem ewmMean_getD_succ (a : ℚ) (x : List ℚ) (t : ℕ) (h : t + 1 < x.length) :
    (ewmMean a x).getD (t + 1) 0 =
      a * x.getD (t + 1) 0 + (1 - a) * (ewmMean a x).getD t 0 := by
  cases x with
  | nil => simp at h
  | cons c cs =>
    cases t with
    | zero =>
      cases cs with
      | nil => simp at h
      | cons d ds =>
        simp only [ewmMean, ewmFrom, List.getD_cons_succ, List.getD_cons_zero]
        ring
    | succ t' =>
      have h' : t' + 1 < cs.length := by
        simpa using Nat.lt_of_succ_lt_succ h
      simp only [ewmMean, List.getD_cons_succ]
      exact ewmFrom_getD_succ a cs c t' h'

/-- C4: for every series `x` and span `s ≥ 1`, `ema` satisfies the
first-value-seeded recursion: `EMA(x)[0] = x[0]` and, for `1 ≤ t <
|x|`, `EMA(x)[t] = a*x[t] + (1-a)*EMA(x)[t-1]` with `a = 2/(s+1)` —
i.e. the `ewm(span=s, adjust=False).mean()` call equals the recursive
reference definition stated in the spec. -/
theorem ema_recursion (x : List ℚ) (s t : ℕ) (hs : 1 ≤ s) (ht1 : 1 ≤ t)
    (ht : t < x.length) :
    (ema x s).getD 0 0 = x.getD 0 0 ∧
    (ema x s).getD t 0 =
      (2 / ((s : ℚ) + 1)) * x.getD t 0 +
        (1 - 2 / ((s : ℚ) + 1)) * (ema x s).getD (t - 1) 0 := by
  have hx : x ≠ [] := by
    intro he
    rw [he] at ht
    simp at ht
  obtain ⟨t', rfl⟩ : ∃ u, t = u + 1 :=
    ⟨t - 1, (Nat.succ_pred_eq_of_pos ht1).symm⟩
  refine ⟨ewmMean_getD_zero _ x hx, ?_⟩
  simpa using ewmMean_getD_succ (2 / ((s : ℚ) + 1)) x t' ht

/-- Witness for C4 at `x = [1, 3]`, `s = 3`, `t = 1`. -/
theorem ema_recursion_witness :
    (ema [1, 3] 3).getD 0 0 = [(1 : ℚ), 3].getD 0 0 ∧
    (ema [1, 3] 3).getD 1 0 =
      (2 / ((3 : ℚ) + 1)) * [(1 : ℚ), 3].getD 1 0 +
        (1 - 2 / ((3 : ℚ) + 1)) * (ema [1, 3] 3).getD 0 0 :=
  ema_recursion [1, 3] 3 1 (by norm_num) (by norm_num) (by norm_num)

/-! ## The first-bar signal (C10) -/

theorem volMean20_zero (v : List ℚ) : volMean20 v 0 = v.getD 0 0 := by
  cases v with
  | nil => simp [volMean20, rollMean]
  | cons x xs => simp [volMean20, rollMean]

/-- C10: the derived signal at the very first bar is never +1: the buy
rule needs `volume[0]` to strictly exceed the trailing 20-bar
minimum-period mean, which at bar 0 is `volume[0]` itself. -/
theorem signal_zero_never_buy (df : BFrame) : signal df 0 ≠ 1 := by
  unfold signal
  split_ifs with h1 h2
  · decide
  · exact absurd (volMean20_zero df.volume ▸ h2.2.2) (lt_irrefl _)
  · decide

/-! ## Win-rate bounds (C3) -/

theorem countWins_le : ∀ l : List Trade, 2 * countWins l ≤ l.length
  | [] => by simp [countWins]
  | [b] => by simp [countWins]
  | b :: s :: rest => by
    have ih := countWins_le rest
    simp only [countWins, List.length_cons]
    split_ifs <;> omega

theorem win_rate_form (w L : ℕ) (hw : 2 * w ≤ L) :
    0 ≤ (if 2 ≤ L then (w : ℚ) / ((L : ℚ) / 2) else 0) ∧
    (if 2 ≤ L then (w : ℚ) / ((L : ℚ) / 2) else 0) ≤ 1 := by
  split_ifs with h
  · have hL2 : (2 : ℚ) ≤ (L : ℚ) := by exact_mod_cast h
    have hLpos : (0 : ℚ) < (L : ℚ) / 2 := by linarith
    refine ⟨by positivity, ?_⟩
    rw [div_le_one hLpos]
    have hcast : 2 * (w : ℚ) ≤ (L : ℚ) := by exact_mod_cast hw
    linarith
  · norm_num

/-- C3: for every input frame the reported win rate lies in `[0,1]`
(`wins / (n_trades/2)` when `n_trades ≥ 2`, `0.0` otherwise): each
counted win consumes two logged trades, so the numerator can never
outgrow half the trade count, an odd trailing unmatched buy included. -/
theorem win_rate_in_unit_interval (df : BFrame) :
    0 ≤ (safe_backtest df).win_rate ∧ (safe_backtest df).win_rate ≤ 1 ∧
      ((safe_backtest df).n_trades < 2 → (safe_backtest df).win_rate = 0) := by
  have h := win_rate_form
    (countWins ((List.range (df.close.length - 1)).foldl (step df) initState).trades)
    (((List.range (df.close.length - 1)).foldl (step df) initState).trades.length)
    (countWins_le _)
  simp only [safe_backtest] at h ⊢
  refine ⟨h.1, h.2, fun hlt => ?_⟩
  rw [if_neg (Nat.not_le.mpr hlt)]

/-! ## Portfolio-state invariant (C5) -/

theorem step_nonneg (df : BFrame) (s : BTState) (i : ℕ)
    (hc : 0 ≤ s.cash) (hp : 0 ≤ s.position) :
    0 ≤ (step df s i).cash ∧ 0 ≤ (step df s i).position := by
  cases hfp : fillPrice df i with
  | none =>
    simp only [step, hfp]
    split_ifs <;> exact ⟨hc, hp⟩
  | some price =>
    simp only [step, hfp]
    split_ifs with h1 hle h2 hle2
    · exact ⟨hc, hp⟩
    · exact ⟨le_refl 0, div_nonneg hc (le_of_lt (lt_of_not_le hle))⟩
    · exact ⟨hc, hp⟩
    · exact ⟨mul_nonneg hp (le_of_lt (lt_of_not_le hle2)), le_refl 0⟩
    · exact ⟨hc, hp⟩

theorem foldl_step_nonneg (df : BFrame) :
    ∀ (l : List ℕ) (s : BTState), 0 ≤ s.cash → 0 ≤ s.position →
      0 ≤ (l.foldl (step df) s).cash ∧ 0 ≤ (l.foldl (step df) s).position
  | [], _, hc, hp => ⟨hc, hp⟩
  | i :: rest, s, hc, hp => by
    have h := step_nonneg df s i hc hp
    exact foldl_step_nonneg df rest _ h.1 h.2

/-- C5: starting from `cash = 100000`, `position = 0`, the state after
every iteration of the backtest pass (every prefix of the bar walk) has
`cash ≥ 0` and `position ≥ 0`: fills only happen at a price guarded to
be positive, a buy moves all cash into a non-negative position, a sell
moves the whole position into non-negative cash, so the portfolio never
goes negative and no short position is ever created. -/
theorem backtest_state_nonneg (df : BFrame) (k : ℕ) :
    0 ≤ (((List.range (df.close.length - 1)).take k).foldl
        (step df) initState).cash ∧
    0 ≤ (((List.range (df.close.length - 1)).take k).foldl
        (step df) initState).position :=
  foldl_step_nonneg df _ initState (by norm_num [initState]) (le_refl 0)

/-! ## Invalid-fill skip (C2) -/

/-- C2: at a bar `t` with an actionable signal (buy while flat or sell
while long) whose next-bar open is missing or non-positive, the loop
iteration is a complete no-op: no trade is appended and cash and
position are unchanged (and the single forward pass never revisits the
bar, so the signal is not retried). -/
theorem step_invalid_fill_skip (df : BFrame) (s : BTState) (t : ℕ)
    (hact : (signal df t = 1 ∧ s.position = 0) ∨
      (signal df t = -1 ∧ 0 < s.position))
    (hbad : fillPrice df t = none ∨
      ∃ p, fillPrice df t = some p ∧ p ≤ 0) :
    step df s t = s := by
  rcases hbad with hnone | ⟨p, hp, hple⟩
  · simp only [step, hnone]
    split_ifs <;> rfl
  · simp only [step, hp, if_pos hple]
    split_ifs <;> rfl

/-- Witness for C2: on `exFrameB`, bar 1 fires a buy signal but the
bar-2 open is 0; the iteration leaves the initial state intact. -/
theorem step_invalid_fill_skip_witness :
    step exFrameB initState 1 = initState :=
  step_invalid_fill_skip exFrameB initState 1
    (Or.inl ⟨by norm_num [signal, volMean20, rollMean, exFrameB], rfl⟩)
    (Or.inr ⟨0, rfl, le_refl 0⟩)

/-! ## Single round-trip (C1) -/

theorem step_no_signal (df : BFrame) (s : BTState) (t : ℕ)
    (h : signal df t = 0) : step df s t = s := by
  simp [step, h]

theorem foldl_step_no_signal (df : BFrame) :
    ∀ (l : List ℕ) (s : BTState), (∀ t ∈ l, signal df t = 0) →
      l.foldl (step df) s = s
  | [], _, _ => rfl
  | i :: rest, s, h => by
    rw [List.foldl_cons, step_no_signal df s i (h i (by simp))]
    exact foldl_step_no_signal df rest s fun t ht => h t (by simp [ht])

theorem step_buy (df : BFrame) (s : BTState) (i : ℕ) (p : ℚ)
    (hsig : signal df i = 1) (hpos : s.position = 0)
    (hfp : fillPrice df i = some p) (hp : 0 < p) :
    step df s i =
      ⟨0, s.cash / p, s.trades ++ [⟨Side.buy, i + 1, p⟩]⟩ := by
  simp [step, hsig, hpos, hfp, hp.not_le]

theorem step_sell (df : BFrame) (s : BTState) (i : ℕ) (p : ℚ)
    (hsig : signal df i = -1) (hpos : 0 < s.position)
    (hfp : fillPrice df i = some p) (hp : 0 < p) :
    step df s i =
      ⟨s.position * p, 0, s.trades ++ [⟨Side.sell, i + 1, p⟩]⟩ := by
  simp [step, hsig, hpos, hfp, hp.not_le]

theorem range_split_two (n i j : ℕ) (hij : i < j) (hj : j + 2 ≤ n) :
    List.range (n - 1) =
      List.range' 0 i ++ [i] ++ List.range' (i + 1) (j - i - 1) ++ [j] ++
        List.range' (j + 1) (n - 2 - j) := by
  have e1 : List.range' 0 i ++ [i] = List.range' 0 (i + 1) := by
    have h := List.range'_append 0 i 1 1
    simpa [Nat.add_comm] using h
  have e2 : List.range' 0 (i + 1) ++ List.range' (i + 1) (j - i - 1) =
      List.range' 0 j := by
    have h := List.range'_append 0 (i + 1) (j - i - 1) 1
    have harith : j - i - 1 + (i + 1) = j := by omega
    simpa [harith] using h
  have e3 : List.range' 0 j ++ [j] = List.range' 0 (j + 1) := by
    have h := List.range'_append 0 j 1 1
    simpa [Nat.add_comm] using h
  have e4 : List.range' 0 (j + 1) ++ List.range' (j + 1) (n - 2 - j) =
      List.range' 0 (n - 1) := by
    have h := List.range'_append 0 (j + 1) (n - 2 - j) 1
    have harith : n - 2 - j + (j + 1) = n - 1 := by omega
    simpa [harith] using h
  calc List.range (n - 1) = List.range' 0 (n - 1) := List.range_eq_range' _
    _ = List.range' 0 (j + 1) ++ List.range' (j + 1) (n - 2 - j) := e4.symm
    _ = List.range' 0 j ++ [j] ++ List.range' (j + 1) (n - 2 - j) := by
        rw [e3]
    _ = List.range' 0 (i + 1) ++ List.range' (i + 1) (j - i - 1) ++ [j] ++
          List.range' (j + 1) (n - 2 - j) := by rw [e2]
    _ = List.range' 0 i ++ [i] ++ List.range' (i + 1) (j - i - 1) ++ [j] ++
          List.range' (j + 1) (n - 2 - j) := by rw [e1]

/-- C1: on a frame whose derived signal is +1 at exactly one bar `i` and
-1 at exactly one bar `j` with `i < j ≤ N-2` (0 elsewhere on the walked
range), with present positive fill prices `p1 = open[i+1]`,
`p2 = open[j+1]`, `safe_backtest` reports `n_trades = 2`,
`final_portfolio_value = (100000/p1)*p2`, and `win_rate = 1` iff
`p2 > p1`, else `0`. -/
theorem backtest_single_round_trip (df : BFrame) (i j : ℕ) (p1 p2 : ℚ)
    (hn : 2 ≤ df.close.length) (hij : i < j)
    (hj : j ≤ df.close.length - 2)
    (hsi : signal df i = 1) (hsj : signal df j = -1)
    (hother : ∀ t, t < df.close.length - 1 → t ≠ i → t ≠ j →
      signal df t = 0)
    (hp1 : fillPrice df i = some p1) (hp1pos : 0 < p1)
    (hp2 : fillPrice df j = some p2) (hp2pos : 0 < p2) :
    (safe_backtest df).n_trades = 2 ∧
    (safe_backtest df).final_portfolio_value = 100000 / p1 * p2 ∧
    (safe_backtest df).win_rate = (if p2 > p1 then 1 else 0) := by
  have hj2 : j + 2 ≤ df.close.length := by omega
  have hmemA : ∀ t ∈ List.range' 0 i, signal df t = 0 := by
    intro t ht
    rw [List.mem_range'] at ht
    obtain ⟨k, hk, hteq⟩ := ht
    exact hother t (by omega) (by omega) (by omega)
  have hmemB : ∀ t ∈ List.range' (i + 1) (j - i - 1), signal df t = 0 := by
    intro t ht
    rw [List.mem_range'] at ht
    obtain ⟨k, hk, hteq⟩ := ht
    exact hother t (by omega) (by omega) (by omega)
  have hmemC : ∀ t ∈ List.range' (j + 1) (df.close.length - 2 - j),
      signal df t = 0 := by
    intro t ht
    rw [List.mem_range'] at ht
    obtain ⟨k, hk, hteq⟩ := ht
    exact hother t (by omega) (by omega) (by omega)
  have hbuy : step df initState i =
      (⟨0, 100000 / p1, [⟨Side.buy, i + 1, p1⟩]⟩ : BTState) := by
    rw [step_buy df initState i p1 hsi rfl hp1 hp1pos]
    rfl
  have hsell :
      step df (⟨0, 100000 / p1, [⟨Side.buy, i + 1, p1⟩]⟩ : BTState) j =
        (⟨100000 / p1 * p2, 0,
          [⟨Side.buy, i + 1, p1⟩, ⟨Side.sell, j + 1, p2⟩]⟩ : BTState) := by
    rw [step_sell df _ j p2 hsj (div_pos (by norm_num) hp1pos) hp2 hp2pos]
    rfl
  have hfold : (List.range (df.close.length - 1)).foldl (step df) initState =
      (⟨100000 / p1 * p2, 0,
        [⟨Side.buy, i + 1, p1⟩, ⟨Side.sell, j + 1, p2⟩]⟩ : BTState) := by
    rw [range_split_two df.close.length i j hij hj2]
    rw [List.foldl_append, List.foldl_append, List.foldl_append,
      List.foldl_append]
    rw [foldl_step_no_signal df _ initState hmemA]
    simp only [List.foldl_cons, List.foldl_nil]
    rw [hbuy, foldl_step_no_signal df _ _ hmemB, hsell]
    exact foldl_step_no_signal df _ _ hmemC
  refine ⟨?_, ?_, ?_⟩
  · simp [safe_backtest, hfold]
  · simp [safe_backtest, hfold]
  · by_cases hw : p2 > p1
    · norm_num [safe_backtest, hfold, countWins, hw]
    · norm_num [safe_backtest, hfold, countWins, hw]

/-- Witness for C1 on `exFrameA` with `i = 1`, `j = 2`, `p1 = 2`,
`p2 = 4`. -/
theorem backtest_single_round_trip_witness :
    (safe_backtest exFrameA).n_trades = 2 ∧
    (safe_backtest exFrameA).final_portfolio_value = 100000 / 2 * 4 ∧
    (safe_backtest exFrameA).win_rate = (if (4 : ℚ) > 2 then 1 else 0) :=
  backtest_single_round_trip exFrameA 1 2 2 4 (by decide) (by decide)
    (by decide)
    (by norm_num [signal, volMean20, rollMean, exFrameA])
    (by norm_num [signal, volMean20, rollMean, exFrameA])
    (by
      intro t ht h1 h2
      norm_num [exFrameA] at ht
      interval_cases t
      · norm_num [signal, volMean20, rollMean, exFrameA]
      · exact absurd rfl h1
      · exact absurd rfl h2)
    rfl (by norm_num) rfl (by norm_num)

/-! ## RSI range (C6) -/

theorem ewmFrom_nonneg (a : ℚ) (ha : 0 ≤ a) (ha1 : a ≤ 1) :
    ∀ (l : List ℚ) (p : ℚ), 0 ≤ p → (∀ x ∈ l, 0 ≤ x) →
      ∀ y ∈ ewmFrom a p l, 0 ≤ y
  | [], _, _, _ => by intro y hy; simp [ewmFrom] at hy
  | x :: xs, p, hp, hl => by
    intro y hy
    have hx : 0 ≤ x := hl x (by simp)
    have hy0 : 0 ≤ (1 - a) * p + a * x :=
      add_nonneg (mul_nonneg (by linarith) hp) (mul_nonneg ha hx)
    simp only [ewmFrom, List.mem_cons] at hy
    rcases hy with rfl | hy
    · exact hy0
    · exact ewmFrom_nonneg a ha ha1 xs _ hy0
        (fun z hz => hl z (by simp [hz])) y hy

theorem ewmMean_nonneg (a : ℚ) (ha : 0 ≤ a) (ha1 : a ≤ 1) (l : List ℚ)
    (hl : ∀ x ∈ l, 0 ≤ x) : ∀ y ∈ ewmMean a l, 0 ≤ y := by
  cases l with
  | nil => intro y hy; simp [ewmMean] at hy
  | cons x xs =>
    intro y hy
    simp only [ewmMean, List.mem_cons] at hy
    rcases hy with rfl | hy
    · exact hl y (by simp)
    · exact ewmFrom_nonneg a ha ha1 xs x (hl x (by simp))
        (fun z hz => hl z (by simp [hz])) y hy

theorem ups_nonneg (c : List ℚ) : ∀ x ∈ ups c, 0 ≤ x := by
  cases c with
  | nil => intro x hx; simp [ups] at hx
  | cons a as =>
    intro x hx
    simp only [ups, List.mem_cons, List.mem_map] at hx
    rcases hx with rfl | ⟨d, _, rfl⟩
    · exact le_refl 0
    · exact le_max_right d 0

theorem downs_nonneg (c : List ℚ) : ∀ x ∈ downs c, 0 ≤ x := by
  cases c with
  | nil => intro x hx; simp [downs] at hx
  | cons a as =>
    intro x hx
    simp only [downs, List.mem_cons, List.mem_map] at hx
    rcases hx with rfl | ⟨d, _, rfl⟩
    · exact le_refl 0
    · exact le_max_right (-d) 0

/-- C6: every value of the series returned by `compute_rsi` lies in
`[0,100]`: the smoothed up- and down-moves are non-negative, so
`RS ≥ 0` and `100 - 100/(1+RS) ∈ [0,100)`; an entry with a zero
smoothed-down denominator is exactly 50. -/
theorem compute_rsi_range (close : List ℚ) :
    ∀ r ∈ compute_rsi close 14, 0 ≤ r ∧ r ≤ 100 := by
  intro r hr
  unfold compute_rsi at hr
  split_ifs at hr with hlen
  · have := List.eq_of_mem_replicate hr
    subst this
    norm_num
  · simp only [List.mem_map] at hr
    obtain ⟨⟨u, d⟩, hmem, rfl⟩ := hr
    obtain ⟨hu, hd⟩ := List.of_mem_zip hmem
    have hu0 : 0 ≤ u :=
      ewmMean_nonneg _ (by norm_num) (by norm_num) _ (ups_nonneg close) u hu
    have hd0 : 0 ≤ d :=
      ewmMean_nonneg _ (by norm_num) (by norm_num) _ (downs_nonneg close)
        d hd
    by_cases hdz : d = 0
    · norm_num [hdz]
    · have hrs : 0 ≤ u / d := div_nonneg hu0 hd0
      have h1 : (0 : ℚ) < 1 + u / d := by linarith
      simp only [if_neg hdz]
      constructor
      · have hb : 100 / (1 + u / d) ≤ 100 := by
          rw [div_le_iff₀ h1]
          nlinarith
        linarith
      · have hb : 0 < 100 / (1 + u / d) := by positivity
        linarith

/-- Witness for C6 at `close = [1]` (shorter than 15 bars, so the RSI
column is the single neutral value 50). -/
theorem compute_rsi_range_witness : 0 ≤ (50 : ℚ) ∧ (50 : ℚ) ≤ 100 :=
  compute_rsi_range [1] 50 (by simp [compute_rsi])

/-! ## First-bar true range and ATR (C7) -/

theorem rollMean_zero (win : ℕ) (hw : 1 ≤ win) (v : List ℚ) :
    rollMean win v 0 = v.getD 0 0 := by
  cases v with
  | nil => simp [rollMean]
  | cons x xs =>
    have h1 : 1 - win = 0 := by omega
    simp [rollMean, h1]

/-- C7: for a non-empty series, the first-bar true range equals
`high[0] - low[0]` (the undefined previous close drops out of the
row max) and `ATR_14[0] = TR[0]` (the minimum-period trailing average
over one element is that element). -/
theorem tr_atr_first_bar (df : Bars) (h : 0 < df.close.length) :
    (compute_all_indicators df).TR.getD 0 0 =
      df.high.getD 0 0 - df.low.getD 0 0 ∧
    (compute_all_indicators df).ATR_14.getD 0 0 =
      (compute_all_indicators df).TR.getD 0 0 := by
  obtain ⟨m, hm⟩ : ∃ m, df.close.length = m + 1 :=
    ⟨df.close.length - 1, by omega⟩
  have hTR0 : (trL df).getD 0 0 = df.high.getD 0 0 - df.low.getD 0 0 := by
    unfold trL
    rw [hm, List.range_succ_eq_map]
    simp [trAt]
  have hATR0 :
      ((List.range df.close.length).map (rollMean 14 (trL df))).getD 0 0 =
        (trL df).getD 0 0 := by
    rw [hm, List.range_succ_eq_map]
    simp only [List.map_cons, List.getD_cons_zero]
    exact rollMean_zero 14 (by norm_num) (trL df)
  exact ⟨hTR0, by simpa [compute_all_indicators] using hATR0⟩

/-- Witness for C7 on the one-bar series
`open=1, high=10, low=7, close=9, volume=2`. -/
theorem tr_atr_first_bar_witness :
    (compute_all_indicators ⟨[1], [10], [7], [9], [2]⟩).TR.getD 0 0 =
      ([(10 : ℚ)].getD 0 0) - ([(7 : ℚ)].getD 0 0) ∧
    (compute_all_indicators ⟨[1], [10], [7], [9], [2]⟩).ATR_14.getD 0 0 =
      (compute_all_indicators ⟨[1], [10], [7], [9], [2]⟩).TR.getD 0 0 :=
  tr_atr_first_bar ⟨[1], [10], [7], [9], [2]⟩ (by decide)

/-! ## OBV as a cumulative signed-volume sum (C8) -/

theorem diffs_length : ∀ c : List ℚ, (diffs c).length = c.length - 1
  | [] => rfl
  | [_] => rfl
  | _ :: y :: rest => by
    simp only [diffs, List.length_cons]
    rw [diffs_length (y :: rest)]
    simp

theorem diffs_getD : ∀ (c : List ℚ) (k : ℕ), k + 1 < c.length →
    (diffs c).getD k 0 = c.getD (k + 1) 0 - c.getD k 0
  | [], _, h => by simp at h
  | [_], _, h => by simp at h
  | _ :: y :: rest, 0, _ => by simp [diffs]
  | x :: y :: rest, k + 1, h => by
    simp only [diffs, List.getD_cons_succ]
    exact diffs_getD (y :: rest) k (by simpa using Nat.lt_of_succ_lt_succ h)

theorem obvSigns_length (c : List ℚ) : (obvSigns c).length = c.length := by
  cases c with
  | nil => rfl
  | cons x xs =>
    simp only [obvSigns, List.length_cons, List.length_map, diffs_length]
    simp

theorem obvSigns_getD (c : List ℚ) (k : ℕ) (hk : k < c.length) :
    (obvSigns c).getD k 0 = signAt c k := by
  cases c with
  | nil => simp at hk
  | cons x xs =>
    cases k with
    | zero => simp [obvSigns, signAt]
    | succ k' =>
      have hd : k' < (diffs (x :: xs)).length := by
        rw [diffs_length]
        simpa using Nat.lt_of_succ_lt_succ hk
      have hdm : k' < ((diffs (x :: xs)).map
          (fun d => if 0 < d then (1 : ℚ) else -1)).length := by
        simpa using hd
      simp only [obvSigns, List.getD_cons_succ]
      rw [List.getD_eq_getElem _ _ hdm, List.getElem_map,
        ← List.getD_eq_getElem (diffs (x :: xs)) 0 hd,
        diffs_getD (x :: xs) k' (by simpa using hk)]
      simp [signAt, sub_pos]

theorem cumFrom_getD (l : List ℚ) : ∀ (acc : ℚ) (t : ℕ), t < l.length →
    (cumFrom acc l).getD t 0 = acc + (l.take (t + 1)).sum := by
  induction l with
  | nil => intro acc t h; simp at h
  | cons x xs ih =>
    intro acc t h
    cases t with
    | zero => simp [cumFrom]
    | succ t' =>
      have h' : t' < xs.length := by simpa using Nat.lt_of_succ_lt_succ h
      simp only [cumFrom, List.getD_cons_succ, List.take_succ_cons,
        List.sum_cons]
      rw [ih (acc + x) t' h']
      ring

theorem cumsum_getD (l : List ℚ) (t : ℕ) (h : t < l.length) :
    (cumsum l).getD t 0 = (l.take (t + 1)).sum := by
  rw [cumsum, cumFrom_getD l 0 t h, zero_add]

theorem sum_take_range : ∀ (m : ℕ) (l : List ℚ), m ≤ l.length →
    (l.take m).sum = ((List.range m).map (fun k => l.getD k 0)).sum := by
  intro m
  induction m with
  | zero => intro l _; simp
  | succ m' ih =>
    intro l h
    cases l with
    | nil => simp at h
    | cons x xs =>
      rw [List.take_succ_cons, List.sum_cons, List.range_succ_eq_map]
      simp only [List.map_cons, List.map_map, List.sum_cons,
        List.getD_cons_zero]
      rw [ih xs (by simpa using h)]
      congr 1

theorem zipWith_getD (f : ℚ → ℚ → ℚ) (a b : List ℚ) (k : ℕ)
    (ha : k < a.length) (hb : k < b.length) :
    (List.zipWith f a b).getD k 0 = f (a.getD k 0) (b.getD k 0) := by
  have hk : k < (List.zipWith f a b).length := by
    rw [List.length_zipWith]
    omega
  rw [List.getD_eq_getElem _ _ hk, List.getD_eq_getElem _ _ ha,
    List.getD_eq_getElem _ _ hb]
  exact List.getElem_zipWith

/-- C8: the OBV column is the running sum of `sign[k] * volume[k]` with
`sign[k] = +1` iff `close[k] > close[k-1]` and `-1` otherwise (the zero
delta of the first bar gets sign `-1`); in particular
`OBV[0] = -volume[0]`. -/
theorem obv_cumulative_signed_volume (df : Bars) (t : ℕ)
    (hWF : df.volume.length = df.close.length)
    (ht : t < df.close.length) :
    (compute_all_indicators df).OBV.getD t 0 =
      ((List.range (t + 1)).map
        (fun k => signAt df.close k * df.volume.getD k 0)).sum ∧
    (compute_all_indicators df).OBV.getD 0 0 = -(df.volume.getD 0 0) := by
  have hlenL : (List.zipWith (· * ·) (obvSigns df.close) df.volume).length =
      df.close.length := by
    rw [List.length_zipWith, obvSigns_length, hWF]
    simp
  have hgen : ∀ u, u < df.close.length →
      (compute_all_indicators df).OBV.getD u 0 =
        ((List.range (u + 1)).map
          (fun k => signAt df.close k * df.volume.getD k 0)).sum := by
    intro u hu
    have h1 : (compute_all_indicators df).OBV.getD u 0 =
        ((List.zipWith (· * ·) (obvSigns df.close) df.volume).take
          (u + 1)).sum := by
      simpa [compute_all_indicators] using
        cumsum_getD (List.zipWith (· * ·) (obvSigns df.close) df.volume) u
          (by rw [hlenL]; omega)
    rw [h1, sum_take_range (u + 1) _ (by rw [hlenL]; omega)]
    congr 1
    apply List.map_congr_left
    intro k hk
    rw [List.mem_range] at hk
    rw [zipWith_getD _ _ _ k (by rw [obvSigns_length]; omega)
      (by rw [hWF]; omega)]
    rw [obvSigns_getD df.close k (by omega)]
  exact ⟨hgen t ht, by
    rw [hgen 0 (by omega)]
    simp [signAt, List.range_succ]⟩

/-- Witness for C8 on `exBars1` at `t = 1`. -/
theorem obv_cumulative_signed_volume_witness :
    (compute_all_indicators exBars1).OBV.getD 1 0 =
      ((List.range (1 + 1)).map
        (fun k => signAt exBars1.close k * exBars1.volume.getD k 0)).sum ∧
    (compute_all_indicators exBars1).OBV.getD 0 0 =
      -(exBars1.volume.getD 0 0) :=
  obv_cumulative_signed_volume exBars1 1 rfl (by decide)

/-! ## Indicator-frame shape (C9) -/

theorem ups_length (c : List ℚ) : (ups c).length = c.length := by
  cases c with
  | nil => rfl
  | cons x xs =>
    simp only [ups, List.length_cons, List.length_map, diffs_length]
    simp

theorem downs_length (c : List ℚ) : (downs c).length = c.length := by
  cases c with
  | nil => rfl
  | cons x xs =>
    simp only [downs, List.length_cons, List.length_map, diffs_length]
    simp

theorem compute_rsi_length (c : List ℚ) (l : ℕ) :
    (compute_rsi c l).length = c.length := by
  unfold compute_rsi
  split_ifs with h
  · simp
  · simp [List.length_zip, ewmMean_length, ups_length, downs_length]

theorem cumFrom_length (l : List ℚ) :
    ∀ acc : ℚ, (cumFrom acc l).length = l.length := by
  induction l with
  | nil => intro acc; rfl
  | cons x xs ih => intro acc; simp [cumFrom, ih]

theorem cumsum_length (l : List ℚ) : (cumsum l).length = l.length :=
  cumFrom_length l 0

theorem ffillFrom_length (l : List (Option ℚ)) :
    ∀ last : Option ℚ, (ffillFrom last l).length = l.length := by
  induction l with
  | nil => intro last; rfl
  | cons x xs ih =>
    intro last
    cases x <;> simp [ffillFrom, ih]

theorem ffill_length (l : List (Option ℚ)) : (ffill l).length = l.length :=
  ffillFrom_length l none

theorem bfill_length (l : List (Option ℚ)) : (bfill l).length = l.length := by
  simp [bfill, ffill_length]

theorem typicalL_length (df : Bars) (hWF : df.WF) :
    (typicalL df).length = df.close.length := by
  obtain ⟨_, h2, h3, _⟩ := hWF
  simp [typicalL, List.length_zipWith, h2, h3]

theorem vwapRaw_length (df : Bars) (hWF : df.WF) :
    (vwapRaw df).length = df.close.length := by
  have h1 : (typicalL df).length = df.close.length := typicalL_length df hWF
  have h4 : df.volume.length = df.close.length := hWF.2.2.2
  simp [vwapRaw, List.length_zip, cumsum_length, List.length_zipWith, h1, h4]

theorem compute_vwap_length (df : Bars) (hWF : df.WF) :
    (compute_vwap df).length = df.close.length := by
  simp [compute_vwap, bfill_length, ffill_length, vwapRaw_length df hWF]

theorem macd_lengths (c : List ℚ) :
    (macd c).1.length = c.length ∧ (macd c).2.1.length = c.length ∧
      (macd c).2.2.length = c.length := by
  simp [macd, List.length_zipWith, ema, ewmMean_length]

theorem trL_length (df : Bars) : (trL df).length = df.close.length := by
  simp [trL]

/-- C9: `compute_all_indicators` returns a new frame of the same length
as its input in which the base open/high/low/close/volume columns are
the caller's values unchanged and every indicator column has the input's
row count — no row is dropped (over ℚ the `replace([inf,-inf], nan)`
pass has nothing to rewrite); the input frame itself, a pure value, is
not mutated. -/
theorem compute_all_indicators_shape (df : Bars) (hWF : df.WF) :
    (compute_all_indicators df).open_ = df.open_ ∧
    (compute_all_indicators df).high = df.high ∧
    (compute_all_indicators df).low = df.low ∧
    (compute_all_indicators df).close = df.close ∧
    (compute_all_indicators df).volume = df.volume ∧
    (compute_all_indicators df).RSI.length = df.close.length ∧
    (compute_all_indicators df).MACD.length = df.close.length ∧
    (compute_all_indicators df).MACD_signal.length = df.close.length ∧
    (compute_all_indicators df).MACD_hist.length = df.close.length ∧
    (compute_all_indicators df).EMA_10.length = df.close.length ∧
    (compute_all_indicators df).EMA_100.length = df.close.length ∧
    (compute_all_indicators df).VWAP.length = df.close.length ∧
    (compute_all_indicators df).OBV.length = df.close.length ∧
    (compute_all_indicators df).TR.length = df.close.length ∧
    (compute_all_indicators df).ATR_14.length = df.close.length := by
  obtain ⟨hm1, hm2, hm3⟩ := macd_lengths df.close
  refine ⟨rfl, rfl, rfl, rfl, rfl, ?_, ?_, ?_, ?_, ?_, ?_, ?_, ?_, ?_, ?_⟩
  · exact compute_rsi_length df.close 14
  · exact hm1
  · exact hm2
  · exact hm3
  · simpa [compute_all_indicators, ema] using ewmMean_length _ df.close
  · simpa [compute_all_indicators, ema] using ewmMean_length _ df.close
  · exact compute_vwap_length df hWF
  · have h4 := hWF.2.2.2
    simp [compute_all_indicators, cumsum_length, List.length_zipWith,
      obvSigns_length, h4]
  · exact trL_length df
  · simp [compute_all_indicators]

/-- Witness for C9 on `exBars1` (all five columns of length 2). -/
theorem compute_all_indicators_shape_witness :
    (compute_all_indicators exBars1).open_ = exBars1.open_ ∧
    (compute_all_indicators exBars1).high = exBars1.high ∧
    (compute_all_indicators exBars1).low = exBars1.low ∧
    (compute_all_indicators exBars1).close = exBars1.close ∧
    (compute_all_indicators exBars1).volume = exBars1.volume ∧
    (compute_all_indicators exBars1).RSI.length = exBars1.close.length ∧
    (compute_all_indicators exBars1).MACD.length = exBars1.close.length ∧
    (compute_all_indicators exBars1).MACD_signal.length =
      exBars1.close.length ∧
    (compute_all_indicators exBars1).MACD_hist.length =
      exBars1.close.length ∧
    (compute_all_indicators exBars1).EMA_10.length = exBars1.close.length ∧
    (compute_all_indicators exBars1).EMA_100.length = exBars1.close.length ∧
    (compute_all_indicators exBars1).VWAP.length = exBars1.close.length ∧
    (compute_all_indicators exBars1).OBV.length = exBars1.close.length ∧
    (compute_all_indicators exBars1).TR.length = exBars1.close.length ∧
    (compute_all_indicators exBars1).ATR_14.length = exBars1.close.length :=
  compute_all_indicators_shape exBars1 ⟨rfl, rfl, rfl, rfl⟩

end StockSim
